import Mathlib

/-!
# Verification of the LinkedIn analytics dashboard (`streamlit_app.py`)

A shallow embedding of the data-transformation core of the dashboard:
the sentence extractor, the data loader, the metrics summarizer, the
three chart builders, the filtering/formatting helpers and the export
path of `main`.  Numeric cell values are modelled as `Option ℚ`
(`none` is pandas `NaN`), impressions as `Option ℤ` (counts),
timestamps as `Option ℤ` (seconds; `NaT` is `none`).  Python floats are
idealised as exact rationals.
-/

namespace SalesStrategy

/-! ## Python character classes (ASCII fragment)

`isPySpace` models the characters matched by the regex class `\s` and
stripped by `str.strip` (restricted to ASCII, which is what the data
contains). `isSentEnd` models the class `[.!?]` of
`extract_first_sentence`. -/

def isPySpace (c : Char) : Bool :=
  c = ' ' || c = '\t' || c = '\n' || c = '\x0b' || c = '\x0c' || c = '\r'

def isSentEnd (c : Char) : Bool :=
  c = '.' || c = '!' || c = '?'

/-- Python `str.strip()`: drop leading and trailing whitespace. -/
def pyStrip (l : List Char) : List Char :=
  ((l.dropWhile isPySpace).reverse.dropWhile isPySpace).reverse

/-- Does the text contain a sentence delimiter, i.e. an occurrence of
the regex `[.!?]\s+` (`hasDelim l = true` iff `re.split` would split)? -/
def hasDelim : List Char → Bool
  | c :: d :: rest => (isSentEnd c && isPySpace d) || hasDelim (d :: rest)
  | _ => false

/-- Is the list non-empty with a whitespace first character?  (The
lookahead deciding whether `[.!?]\s+` matches at the current point.) -/
def headSpace : List Char → Bool
  | d :: _ => isPySpace d
  | [] => false

/-- Worker for `re.split(r'[.!?]\s+', text)`.  `skip = true` means the
scanner is inside the `\s+` part of a match and drops the remaining
whitespace of that maximal run before continuing. -/
def splitSentGo : Bool → List Char → List (List Char)
  | _, [] => [[]]
  | skip, c :: rest =>
    if skip && isPySpace c then splitSentGo true rest
    else if isSentEnd c && headSpace rest then
      [] :: splitSentGo true rest
    else
      match splitSentGo false rest with
      | t :: ts => (c :: t) :: ts
      | [] => [[c]]

/-- `re.split(r'[.!?]\s+', text)`: split at each non-overlapping,
leftmost-first match of a sentence-ending character followed by a
maximal non-empty run of whitespace; the match itself is removed. -/
def splitSent (l : List Char) : List (List Char) :=
  splitSentGo false l

/-- Lines 43-47: take the first candidate sentence stripped; if it is
shorter than 20 characters and a second candidate exists, use the raw
first and second candidates joined by `". "` instead. -/
def concatStep (sentences : List (List Char)) : List Char :=
  if (pyStrip (sentences.headD [])).length < 20 && sentences.length > 1 then
    sentences.headD [] ++ '.' :: ' ' :: sentences.getD 1 []
  else pyStrip (sentences.headD [])

/-- Lines 50-51: truncate to 97 characters plus `"..."` when longer
than 100. -/
def truncStep (l : List Char) : List Char :=
  if l.length > 100 then l.take 97 ++ ['.', '.', '.'] else l

/-- `extract_first_sentence` (lines 36-53): derive a bounded display
summary from the raw post title.  The input is `none` when the cell is
missing (pandas `NaN`). -/
def extract_first_sentence (text : Option String) : String :=
  match text with
  | none => ""
  | some s =>
    if s = "" then ""
    else String.mk (truncStep (concatStep (splitSent s.toList)))

/-! ## Raw spreadsheet cells and the Data Loader (lines 55-91)

A raw cell abstracts a spreadsheet value by what the pandas converters
would make of it: `num`/`int`/`date` carry the converted value,
`missing` is an empty cell (`NaN`), and `unconvertible` is a value the
relevant converter cannot parse.  Impressions are counts, modelled as
integers. -/

inductive NumCell where
  | missing
  | num (q : ℚ)
  | unconvertible
deriving DecidableEq, Repr

inductive IntCell where
  | missing
  | num (n : ℤ)
  | unconvertible
deriving DecidableEq, Repr

inductive DateCell where
  | missing
  | date (d : ℤ)
  | unconvertible
deriving DecidableEq, Repr

/-- `pd.to_numeric(x, errors='coerce')` per cell: an unparseable value
becomes `NaN` (`none`), never an error. -/
def toNumericCoerce : NumCell → Option ℚ
  | .num q => some q
  | _ => none

/-- Same coercion for the integer-valued impressions column. -/
def toNumericCoerceInt : IntCell → Option ℤ
  | .num n => some n
  | _ => none

/-- The value `pd.to_datetime` produces for a convertible cell
(`NaT`/`none` for an empty cell). Only meaningful when the cell is not
`unconvertible`. -/
def dateValue : DateCell → Option ℤ
  | .date d => some d
  | _ => none

/-- Does `pd.to_datetime` (default `errors='raise'`) raise on this cell? -/
def dateRaises : DateCell → Bool
  | .unconvertible => true
  | _ => false

/-- One row of the sheet after header normalization, before type
conversion.  A field is only meaningful when the corresponding
column-presence flag of the `RawTable` is set. -/
structure RawRow where
  postTitle : Option String
  createdDate : DateCell
  engagementRate : NumCell
  ctr : NumCell
  impressions : IntCell
  postType : Option String
deriving DecidableEq, Repr

/-- The sheet as read with `header=1` and lowercased/stripped column
names; the `has*` flags record which of the recognized columns exist. -/
structure RawTable where
  hasPostTitle : Bool
  hasCreatedDate : Bool
  hasEngagementRate : Bool
  hasCtr : Bool
  hasImpressions : Bool
  hasPostType : Bool
  rows : List RawRow
deriving DecidableEq, Repr

/-- One row of the normalized table produced by the loader.  `title`
is the raw `post title` cell, which stays in the frame. -/
structure Row where
  title : Option String
  titleSummary : String
  createdDate : Option ℤ
  engagementRate : Option ℚ
  ctr : Option ℚ
  impressions : Option ℤ
  postType : Option String
deriving DecidableEq, Repr

/-- The normalized table; the flags mirror `'col' in df.columns`. -/
structure Table where
  hasCreatedDate : Bool
  hasEngagementRate : Bool
  hasCtr : Bool
  hasImpressions : Bool
  hasPostType : Bool
  rows : List Row
deriving DecidableEq, Repr

/-- `load_and_process_data` (lines 55-91).  Returns `none` when the
required title column is absent (line 65-67) or when any exception is
raised inside the `try` block (lines 89-91); the only statement in the
block that can raise on cell contents is `pd.to_datetime` (line 74),
which uses the default `errors='raise'` and therefore aborts the whole
load on the first unconvertible date cell.  The three numeric columns
use `errors='coerce'` (lines 78-85), so their bad cells degrade to
`NaN`. -/
def load_and_process_data (raw : RawTable) : Option Table :=
  if !raw.hasPostTitle then none
  else if raw.hasCreatedDate && raw.rows.any (fun r => dateRaises r.createdDate) then
    none
  else
    some
      { hasCreatedDate := raw.hasCreatedDate
        hasEngagementRate := raw.hasEngagementRate
        hasCtr := raw.hasCtr
        hasImpressions := raw.hasImpressions
        hasPostType := raw.hasPostType
        rows := raw.rows.map fun r =>
          { title := r.postTitle
            titleSummary := extract_first_sentence r.postTitle
            createdDate := if raw.hasCreatedDate then dateValue r.createdDate else none
            engagementRate :=
              if raw.hasEngagementRate then toNumericCoerce r.engagementRate else none
            ctr := if raw.hasCtr then toNumericCoerce r.ctr else none
            impressions :=
              if raw.hasImpressions then toNumericCoerceInt r.impressions else none
            postType := if raw.hasPostType then r.postType else none } }

/-! ## Metrics Summarizer (lines 93-98) -/

/-- `Series.mean()` with the default `skipna=True`: `NaN` entries are
excluded; the mean of an empty or all-`NaN` series is `NaN` (`none`). -/
def seriesMean (xs : List (Option ℚ)) : Option ℚ :=
  let vs := xs.filterMap id
  if vs.length = 0 then none else some (vs.sum / vs.length)

/-- `Series.sum()` with the default `skipna=True`: `NaN` entries are
excluded; the sum of an empty or all-`NaN` series is `0`. -/
def seriesSumInt (xs : List (Option ℤ)) : ℤ :=
  (xs.filterMap id).sum

/-- The four aggregate values computed by `create_summary_metrics`;
`none` models a `NaN` average (an all-missing present column). -/
structure SummaryMetrics where
  totalPosts : ℕ
  avgEngagement : Option ℚ
  avgCtr : Option ℚ
  totalImpressions : ℤ
deriving DecidableEq, Repr

/-- `create_summary_metrics` (lines 93-98): the zero fallbacks are taken
only when the column is absent; `NaN * 100 = NaN` is the `Option.map`. -/
def create_summary_metrics (t : Table) : SummaryMetrics :=
  { totalPosts := t.rows.length
    avgEngagement :=
      if t.hasEngagementRate then
        (seriesMean (t.rows.map Row.engagementRate)).map (· * 100)
      else some 0
    avgCtr :=
      if t.hasCtr then (seriesMean (t.rows.map Row.ctr)).map (· * 100)
      else some 0
    totalImpressions :=
      if t.hasImpressions then seriesSumInt (t.rows.map Row.impressions) else 0 }

/-! ## Chart Builders (lines 126-206)

A builder returns `Except String (Option chart)`: `.ok none` is the
no-chart sentinel (`return None`), `.ok (some c)` a built chart, and
`.error _` an uncaught exception escaping the builder (nothing in
`main` catches these). -/

/-- `Timestamp.date()` / `Series.dt.date`: the calendar day of a
timestamp (timestamps are seconds, days have 86400 of them). -/
def dateOf (t : ℤ) : ℤ := t / 86400

/-- One point of the daily aggregation `daily_stats` (lines 132-136). -/
structure DailyStat where
  day : ℤ
  engagementMean : Option ℚ
  impressionsSum : ℤ
  ctrMean : Option ℚ
deriving DecidableEq, Repr

/-- The trend figure: the single scatter series of line 140-147,
`y = daily engagement mean * 100` (`NaN` stays `NaN`). -/
structure TrendChart where
  points : List (ℤ × Option ℚ)
deriving DecidableEq, Repr

/-- The distinct days of the non-`NaT` created dates, in the ascending
order `groupby` emits (its default `sort=True`). -/
def trendDays (rows : List Row) : List ℤ :=
  (((rows.filterMap Row.createdDate).map dateOf).dedup).insertionSort (· ≤ ·)

/-- The `daily_stats` aggregation of lines 132-136 (`NaT` rows are
dropped by `groupby` because their key is missing). -/
def dailyStats (rows : List Row) : List DailyStat :=
  (trendDays rows).map fun d =>
    let grp := rows.filter fun r => r.createdDate.map dateOf = some d
    { day := d
      engagementMean := seriesMean (grp.map Row.engagementRate)
      impressionsSum := seriesSumInt (grp.map Row.impressions)
      ctrMean := seriesMean (grp.map Row.ctr) }

/-- `create_engagement_trend_chart` (lines 126-158): returns the
sentinel only when `created date` is absent (line 128); the `.agg` dict
of lines 132-136 raises a `KeyError` when any of the three aggregated
columns is missing. -/
def create_engagement_trend_chart (t : Table) : Except String (Option TrendChart) :=
  if !t.hasCreatedDate then .ok none
  else if !(t.hasEngagementRate && t.hasImpressions && t.hasCtr) then
    .error "KeyError: aggregation column missing"
  else
    .ok (some { points := (dailyStats t.rows).map fun s => (s.day, s.engagementMean.map (· * 100)) })

/-- The metric argument of `create_top_posts_chart`; `main` passes the
two rate columns (lines 277, 282). -/
inductive Metric where
  | engagementRate
  | clickThroughRate
  | impressionsCount
deriving DecidableEq, Repr

/-- `metric in df.columns` for the modelled metrics. -/
def metricPresent (t : Table) : Metric → Bool
  | .engagementRate => t.hasEngagementRate
  | .clickThroughRate => t.hasCtr
  | .impressionsCount => t.hasImpressions

/-- The metric cell of a row, as a rational (impressions are cast). -/
def metricValue (r : Row) : Metric → Option ℚ
  | .engagementRate => r.engagementRate
  | .clickThroughRate => r.ctr
  | .impressionsCount => r.impressions.map fun n => (n : ℚ)

/-- Is the metric one of the two percentage columns of line 169? -/
def isRateMetric : Metric → Bool
  | .engagementRate => true
  | .clickThroughRate => true
  | .impressionsCount => false

/-- Line 170: rate metrics are scaled to percent for the bar axis. -/
def scaleMetric (m : Metric) (v : ℚ) : ℚ :=
  if isRateMetric m then v * 100 else v

/-- One bar of the top-posts figure: title summary, (possibly
percent-scaled) metric value, and the impressions hover detail. -/
structure Bar where
  title : String
  value : ℚ
  impressions : Option ℤ
deriving DecidableEq, Repr

/-- The `nlargest` order on index-value pairs: strictly greater value
first, ties kept in original row order (`keep='first'`). -/
def nlargestLE (a b : ℕ × Row × ℚ) : Prop :=
  b.2.2 < a.2.2 ∨ (a.2.2 = b.2.2 ∧ a.1 ≤ b.1)

instance : DecidableRel nlargestLE := fun a b => by
  unfold nlargestLE; infer_instance

instance : IsTotal (ℕ × Row × ℚ) nlargestLE :=
  ⟨by
    intro a b
    unfold nlargestLE
    rcases lt_trichotomy a.2.2 b.2.2 with h | h | h
    · right; left; exact h
    · rcases le_total a.1 b.1 with hi | hi
      · left; right; exact ⟨h, hi⟩
      · right; right; exact ⟨h.symm, hi⟩
    · left; left; exact h⟩

instance : IsTrans (ℕ × Row × ℚ) nlargestLE :=
  ⟨by
    intro a b c hab hbc
    unfold nlargestLE at hab hbc ⊢
    rcases hab with h1 | ⟨h1, i1⟩ <;> rcases hbc with h2 | ⟨h2, i2⟩
    · left; exact lt_trans h2 h1
    · left; rw [← h2]; exact h1
    · left; rw [h1]; exact h2
    · right; exact ⟨h1.trans h2, le_trans i1 i2⟩⟩

/-- `df.nlargest(top_n, metric)` (line 166): rows whose metric is `NaN`
are dropped, the rest are sorted by descending metric value (ties in
original order) and the first `top_n` are kept. -/
def nlargestRows (rows : List Row) (m : Metric) (topN : ℕ) : List (ℕ × Row × ℚ) :=
  ((rows.enum.filterMap fun p =>
      (metricValue p.2 m).map fun v => (p.1, p.2, v)).insertionSort nlargestLE).take topN

/-- The bar list handed to `px.bar` (lines 166-182), in `nlargest`
(descending) order; rates are scaled to percent (line 170). -/
structure RankChart where
  bars : List Bar
deriving DecidableEq, Repr

/-- `create_top_posts_chart` (lines 160-189): sentinel only when the
metric column is absent (line 162); the column selection of line 166
also needs `impressions` and raises a `KeyError` when it is missing.
(`'post title (first sentence)'` always exists on a loaded table.) -/
def create_top_posts_chart (t : Table) (m : Metric) (topN : ℕ) :
    Except String (Option RankChart) :=
  if !metricPresent t m then .ok none
  else if !t.hasImpressions then .error "KeyError: impressions column missing"
  else
    .ok (some
      { bars := (nlargestRows t.rows m topN).map fun p =>
          { title := p.2.1.titleSummary
            value := scaleMetric m p.2.2
            impressions := p.2.1.impressions } })

/-- The display order of the bars: the layout directive
`yaxis={'categoryorder': 'total ascending'}` (line 186) makes the
rendering order ascending in the bar values (bar titles are the
categories; with pairwise distinct titles each category total is the
bar's own value). -/
def rankDisplayBars (c : RankChart) : List Bar :=
  c.bars.insertionSort fun a b => a.value ≤ b.value

/-- The correlation scatter: per-point x (impressions), y (engagement
rate in percent) and the hover data of line 200. -/
structure ScatterChart where
  points : List ((Option ℤ) × Option ℚ × String × Option ℚ)
deriving DecidableEq, Repr

/-- `create_scatter_plot` (lines 191-206): sentinel when `impressions`
or `engagement rate` is absent (line 193); `hover_data` (line 200) also
references the ctr column and `px.scatter` raises when it is missing. -/
def create_scatter_plot (t : Table) : Except String (Option ScatterChart) :=
  if !(t.hasImpressions && t.hasEngagementRate) then .ok none
  else if !t.hasCtr then .error "ValueError: hover column missing"
  else
    .ok (some
      { points := t.rows.map fun r =>
          (r.impressions, r.engagementRate.map (· * 100), r.titleSummary, r.ctr) })

/-! ## Display formatting (lines 306-318)

Python floats are idealised as exact rationals; `round` is Python's
banker's rounding, `str` on a float that is a multiple of `1/100` is
the shortest decimal form with at least one fractional digit. -/

/-- Worker for `natDigits`; the fuel bounds the number of digits and
any fuel of at least `n` is enough. -/
def natDigitsAux : ℕ → ℕ → List ℕ
  | 0, n => [n % 10]
  | fuel + 1, n => if n < 10 then [n] else natDigitsAux fuel (n / 10) ++ [n % 10]

/-- Decimal digits of a natural number, most significant first. -/
def natDigits (n : ℕ) : List ℕ := natDigitsAux n n

/-- A single decimal digit as a character. -/
def digitChar (d : ℕ) : Char := Char.ofNat (48 + d)

/-- Insert a comma after every group of three characters of a reversed
digit list (the helper of `commaFmt`). -/
def commaGroupRev : List Char → List Char
  | a :: b :: c :: d :: rest => a :: b :: c :: ',' :: commaGroupRev (d :: rest)
  | l => l

/-- `f-string` thousands formatting `f"{n:,}"` for an integer. -/
def commaFmt (n : ℤ) : List Char :=
  (if n < 0 then ['-'] else []) ++
    (commaGroupRev ((natDigits n.natAbs).map digitChar).reverse).reverse

/-- Python `round` on exact values: round half to even. -/
def roundHalfEven (q : ℚ) : ℤ :=
  let f := ⌊q⌋
  let d := q - f
  if d < 1 / 2 then f
  else if 1 / 2 < d then f + 1
  else if f % 2 = 0 then f else f + 1

/-- `str(v)` for a float `v = n / 100`: sign, integer part, a dot, and
the fractional digits with a trailing zero in the hundredths place
dropped (but always at least one fractional digit). -/
def ratStr2 (n : ℤ) : List Char :=
  let frac := n.natAbs % 100
  (if n < 0 then ['-'] else []) ++
    (natDigits (n.natAbs / 100)).map digitChar ++
    '.' ::
      (if frac % 10 = 0 then [digitChar (frac / 10)]
       else [digitChar (frac / 10), digitChar (frac % 10)])

/-- Line 311/314: `(x * 100).round(2).astype(str) + '%'` per cell; a
`NaN` cell prints as `"nan%"`. -/
def formatRateCell (x : Option ℚ) : String :=
  match x with
  | some r => String.mk (ratStr2 (roundHalfEven (r * 10000)) ++ ['%'])
  | none => "nan%"

/-- Line 318: `f"{x:,}" if pd.notna(x) else "0"`. -/
def formatImprCell (x : Option ℤ) : String :=
  match x with
  | some n => String.mk (commaFmt n)
  | none => "0"

/-- One displayed row of the performance table (lines 290-318).  An
outer `none` means the column is absent from the frame and so from the
display.  Title, created date and post type are shown unformatted. -/
structure DisplayRow where
  titleStr : String
  createdCell : Option (Option ℤ)
  imprStr : Option String
  rateStr : Option String
  ctrStr : Option String
  postTypeCell : Option (Option String)
deriving DecidableEq, Repr

/-- Formatting of one row for display (lines 306-318). -/
def formatRow (t : Table) (r : Row) : DisplayRow :=
  { titleStr := r.titleSummary
    createdCell := if t.hasCreatedDate then some r.createdDate else none
    imprStr := if t.hasImpressions then some (formatImprCell r.impressions) else none
    rateStr := if t.hasEngagementRate then some (formatRateCell r.engagementRate) else none
    ctrStr := if t.hasCtr then some (formatRateCell r.ctr) else none
    postTypeCell := if t.hasPostType then some r.postType else none }

/-! ## The free-text search (lines 321-325)

`Series.str.contains(term, case=False, na=False)` uses `re.search`
with `re.IGNORECASE`: the term is a regular expression, not a literal.
The model covers the regex fragment the data can trigger whose
patterns are sequences of literal characters and the `.` wildcard;
other metacharacters are outside the model (`isRegexMeta` names
them all, and the theorems restrict terms accordingly). -/

inductive PatElem where
  | lit (c : Char)
  | anyChar
deriving DecidableEq, Repr

/-- Python regex metacharacters (special outside a character class). -/
def isRegexMeta (c : Char) : Bool :=
  c = '.' || c = '^' || c = '$' || c = '*' || c = '+' || c = '?' ||
    c = '\x7b' || c = '\x7d' || c = '[' || c = ']' || c = '\\' || c = '|' ||
    c = '(' || c = ')'

/-- Compile a search term of the modelled fragment. -/
def parsePat (s : String) : List PatElem :=
  s.toList.map fun c => if c = '.' then .anyChar else .lit c

/-- Case-insensitive single-element match; `.` matches anything except
a newline. -/
def elemMatch : PatElem → Char → Bool
  | .anyChar, c => c ≠ '\n'
  | .lit a, c => a.toLower = c.toLower

/-- Match the whole pattern at the start of the text. -/
def matchHere : List PatElem → List Char → Bool
  | [], _ => true
  | _ :: _, [] => false
  | e :: es, c :: cs => elemMatch e c && matchHere es cs

/-- `re.search`: does the pattern match at some position? -/
def reSearch (pat : List PatElem) : List Char → Bool
  | [] => matchHere pat []
  | c :: cs => matchHere pat (c :: cs) || reSearch pat cs

/-- The row-retention predicate of line 324 applied to one title
summary. -/
def searchKeeps (term : String) (title : String) : Bool :=
  reSearch (parsePat term) title.toList

/-! ## The main view pipeline (lines 208-341) -/

/-- The interactive state `main` reads: the post-type selection
(`none` is the `'All'` sentinel), the date-range picker value (`none`
models a selection that is not a two-element range, line 251), and the
search box content (`""` is falsy, so no search). -/
structure ViewInput where
  selectedPostType : Option String
  dateRange : Option (ℤ × ℤ)
  searchTerm : String
deriving DecidableEq, Repr

/-- Lines 235-240: the exact-match post-type filter, only offered when
the column exists; a missing post type never equals the selection. -/
def applyPostTypeFilter (t : Table) (sel : Option String) : Table :=
  if t.hasPostType then
    match sel with
    | some pt => { t with rows := t.rows.filter fun r => r.postType = some pt }
    | none => t
  else t

/-- Lines 243-254: the inclusive date-range filter on the date portion
of `created date`; a `NaT` date compares false on both bounds. -/
def applyDateFilter (t : Table) (dr : Option (ℤ × ℤ)) : Table :=
  if t.hasCreatedDate then
    match dr with
    | some (s, e) =>
      { t with
        rows := t.rows.filter fun r =>
          match r.createdDate with
          | some d => decide (s ≤ dateOf d) && decide (dateOf d ≤ e)
          | none => false }
    | none => t
  else t

/-- What `main` produces from the filtered frame: the displayed
(formatted, searched) rows, and the exported CSV as a header plus the
raw rows serialized from `df` (line 335). -/
structure ViewOutput where
  displayRows : List DisplayRow
  exportHeader : List String
  exportRows : List Row
deriving DecidableEq, Repr

/-- The CSV header `df.to_csv` writes: every column of the frame (in a
canonical order; the raw title column and the derived summary column
are always present on a loaded table). -/
def exportHeader (t : Table) : List String :=
  ["post title"] ++
    (if t.hasCreatedDate then ["created date"] else []) ++
    (if t.hasEngagementRate then ["engagement rate"] else []) ++
    (if t.hasCtr then ["click through rate (ctr)"] else []) ++
    (if t.hasImpressions then ["impressions"] else []) ++
    (if t.hasPostType then ["post type"] else []) ++
    ["post title (first sentence)"]

/-- Lines 230-341 of `main` after a successful load: sidebar filters
are applied to `df`, the display copy is formatted and then search-
filtered, and the download serializes `df` — the frame as of line 335,
to which the search of lines 323-325 was never applied. -/
def mainView (t : Table) (inp : ViewInput) : ViewOutput :=
  let t2 := applyDateFilter (applyPostTypeFilter t inp.selectedPostType) inp.dateRange
  let disp := t2.rows.map (formatRow t2)
  let disp :=
    if inp.searchTerm ≠ "" then
      disp.filter fun dr => searchKeeps inp.searchTerm dr.titleStr
    else disp
  { displayRows := disp
    exportHeader := exportHeader t2
    exportRows := t2.rows }

/-! ## Helper definitions used by the theorems -/

/-- The table with only the rows whose engagement rate is present
(used to state that aggregation ignores the dropped rows). -/
def keepPresentEngagement (t : Table) : Table :=
  { t with rows := t.rows.filter fun r => r.engagementRate.isSome }

/-- The table with only the rows whose impressions are present. -/
def keepPresentImpressions (t : Table) : Table :=
  { t with rows := t.rows.filter fun r => r.impressions.isSome }

/-- Case-insensitive literal-substring matching, the behaviour the
specification ascribes to the free-text search (for comparison with the
regex behaviour of the code).  `ciIsPrefix` compares lowercased
characters one by one; `ciSubstr` tries every start position. -/
def ciIsPrefix : List Char → List Char → Bool
  | [], _ => true
  | _ :: _, [] => false
  | a :: as, b :: bs => (a.toLower = b.toLower) && ciIsPrefix as bs

def ciSubstr (pat : List Char) : List Char → Bool
  | [] => ciIsPrefix pat []
  | c :: cs => ciIsPrefix pat (c :: cs) || ciSubstr pat cs

/-- Number of digits between the decimal point and the percent sign of
a rendered rate string (counts the characters strictly after the first
dot, excluding the trailing percent sign). -/
def pctDecimalCount (s : String) : ℕ :=
  ((s.toList.dropWhile fun c => c ≠ '.').length) - 2

/-- The export as the claim describes it (modelled from the spec's
words, for comparison with `mainView`): the rows after the post-type
filter, the date-range filter *and* the free-text search. -/
def claimedExportRows (t : Table) (inp : ViewInput) : List Row :=
  let t2 := applyDateFilter (applyPostTypeFilter t inp.selectedPostType) inp.dateRange
  if inp.searchTerm ≠ "" then
    t2.rows.filter fun r => searchKeeps inp.searchTerm r.titleSummary
  else t2.rows

/-- Parse a digit string back into a number (used to state that the
thousands-separated rendering preserves the digits). -/
def digitsToNat (l : List Char) : ℕ :=
  l.foldl (fun a c => 10 * a + (c.toNat - 48)) 0

/-- Did a chart-builder call return a built chart? -/
def hasChart {α : Type} : Except String (Option α) → Bool
  | .ok (some _) => true
  | _ => false

/-- Did a chart-builder call end in an uncaught exception? -/
def isRaised {α : Type} : Except String (Option α) → Bool
  | .error _ => true
  | _ => false

/-! ## Concrete fixtures for counterexamples and witnesses -/

/-- A raw sheet whose only created-date cell cannot be parsed. -/
def rawBadDate : RawTable :=
  { hasPostTitle := true
    hasCreatedDate := true
    hasEngagementRate := true
    hasCtr := false
    hasImpressions := false
    hasPostType := false
    rows := [{ postTitle := some "A fine post about sales"
               createdDate := .unconvertible
               engagementRate := .num (mkRat 1 20)
               ctr := .missing
               impressions := .missing
               postType := none }] }

/-- A raw sheet with an unparseable engagement-rate cell and a missing
impressions cell, but clean dates. -/
def rawCoerce : RawTable :=
  { hasPostTitle := true
    hasCreatedDate := true
    hasEngagementRate := true
    hasCtr := true
    hasImpressions := true
    hasPostType := false
    rows := [{ postTitle := some "First post"
               createdDate := .date 86400
               engagementRate := .unconvertible
               ctr := .num (mkRat 1 50)
               impressions := .missing
               postType := none },
             { postTitle := some "Second post"
               createdDate := .missing
               engagementRate := .num (mkRat 1 10)
               ctr := .unconvertible
               impressions := .num 250
               postType := none }] }

/-- A loaded table whose engagement-rate column is present but entirely
missing. -/
def tAllMissing : Table :=
  { hasCreatedDate := false
    hasEngagementRate := true
    hasCtr := true
    hasImpressions := false
    hasPostType := false
    rows := [{ title := some "A"
               titleSummary := "A"
               createdDate := none
               engagementRate := none
               ctr := none
               impressions := none
               postType := none },
             { title := some "B"
               titleSummary := "B"
               createdDate := none
               engagementRate := none
               ctr := none
               impressions := none
               postType := none }] }

/-- A loaded table with no rate columns at all. -/
def tNoRateCols : Table :=
  { hasCreatedDate := false
    hasEngagementRate := false
    hasCtr := false
    hasImpressions := false
    hasPostType := false
    rows := [{ title := some "A"
               titleSummary := "A"
               createdDate := none
               engagementRate := none
               ctr := none
               impressions := none
               postType := none }] }

/-- The three-row table of the C3 example: engagement rates
`[0.1, missing, 0.3]` and impressions `[100, missing, 200]`. -/
def tMixed : Table :=
  { hasCreatedDate := false
    hasEngagementRate := true
    hasCtr := false
    hasImpressions := true
    hasPostType := false
    rows := [{ title := some "A"
               titleSummary := "A"
               createdDate := none
               engagementRate := some (mkRat 1 10)
               ctr := none
               impressions := some 100
               postType := none },
             { title := some "B"
               titleSummary := "B"
               createdDate := none
               engagementRate := none
               ctr := none
               impressions := none
               postType := none },
             { title := some "C"
               titleSummary := "C"
               createdDate := none
               engagementRate := some (mkRat 3 10)
               ctr := none
               impressions := some 200
               postType := none }] }

/-- A table that has `created date` but no engagement-rate column: the
trend builder's aggregation raises on it. -/
def tTrendBad : Table :=
  { hasCreatedDate := true
    hasEngagementRate := false
    hasCtr := true
    hasImpressions := true
    hasPostType := false
    rows := [{ title := some "A"
               titleSummary := "A"
               createdDate := some 0
               engagementRate := none
               ctr := none
               impressions := some 10
               postType := none }] }

/-- A table with an engagement-rate column but no impressions column:
the ranking builder's column selection raises on it. -/
def tRankBad : Table :=
  { hasCreatedDate := false
    hasEngagementRate := true
    hasCtr := false
    hasImpressions := false
    hasPostType := false
    rows := [{ title := some "A"
               titleSummary := "A"
               createdDate := none
               engagementRate := some (mkRat 1 2)
               ctr := none
               impressions := none
               postType := none }] }

/-- The four-row ranking example with engagement rates
`[0.5, 0.9, 0.2, 0.7]`. -/
def tRank : Table :=
  { hasCreatedDate := false
    hasEngagementRate := true
    hasCtr := false
    hasImpressions := true
    hasPostType := false
    rows := [{ title := some "P1"
               titleSummary := "P1"
               createdDate := none
               engagementRate := some (mkRat 1 2)
               ctr := none
               impressions := some 10
               postType := none },
             { title := some "P2"
               titleSummary := "P2"
               createdDate := none
               engagementRate := some (mkRat 9 10)
               ctr := none
               impressions := some 20
               postType := none },
             { title := some "P3"
               titleSummary := "P3"
               createdDate := none
               engagementRate := some (mkRat 1 5)
               ctr := none
               impressions := some 30
               postType := none },
             { title := some "P4"
               titleSummary := "P4"
               createdDate := none
               engagementRate := some (mkRat 7 10)
               ctr := none
               impressions := some 40
               postType := none }] }

/-- A two-row table used for the search and export claims. -/
def tSearch : Table :=
  { hasCreatedDate := false
    hasEngagementRate := false
    hasCtr := false
    hasImpressions := false
    hasPostType := false
    rows := [{ title := some "Apple pie day"
               titleSummary := "Apple pie day"
               createdDate := none
               engagementRate := none
               ctr := none
               impressions := none
               postType := none },
             { title := some "Banana bread"
               titleSummary := "Banana bread"
               createdDate := none
               engagementRate := none
               ctr := none
               impressions := none
               postType := none }] }

/-! ## Lemmas about the sentence splitter and stripper -/

theorem splitSentGo_ne_nil (skip : Bool) (l : List Char) : splitSentGo skip l ≠ [] := by
  induction l generalizing skip with
  | nil => simp [splitSentGo]
  | cons c rest ih =>
    unfold splitSentGo
    split
    · exact ih true
    · split
      · simp
      · cases h : splitSentGo false rest with
        | nil => simp
        | cons t ts => simp

theorem hasDelim_cons_false {c : Char} {rest : List Char}
    (h : hasDelim (c :: rest) = false) :
    (isSentEnd c && headSpace rest) = false ∧ hasDelim rest = false := by
  cases rest with
  | nil => simp [hasDelim, headSpace] at h ⊢
  | cons d rest => simpa [hasDelim, headSpace] using h

theorem splitSent_of_hasDelim_false {l : List Char} (h : hasDelim l = false) :
    splitSent l = [l] := by
  unfold splitSent
  induction l with
  | nil => simp [splitSentGo]
  | cons c rest ih =>
    obtain ⟨h1, h2⟩ := hasDelim_cons_false h
    unfold splitSentGo
    rw [if_neg (by simp), if_neg (by simp [h1]), ih h2]

theorem two_le_splitSent_length {l : List Char} (h : hasDelim l = true) :
    2 ≤ (splitSent l).length := by
  unfold splitSent
  induction l with
  | nil => simp [hasDelim] at h
  | cons c rest ih =>
    unfold splitSentGo
    simp only [Bool.false_and, if_neg, Bool.false_eq_true, not_false_iff]
    by_cases hd : (isSentEnd c && headSpace rest) = true
    · rw [if_pos hd]
      have := splitSentGo_ne_nil true rest
      cases hgo : splitSentGo true rest with
      | nil => exact absurd hgo this
      | cons t ts => simp
    · rw [if_neg hd]
      have h2 : hasDelim rest = true := by
        cases rest with
        | nil => simp [hasDelim, headSpace] at h hd
        | cons d rest =>
          have : hasDelim (c :: d :: rest) =
              ((isSentEnd c && isPySpace d) || hasDelim (d :: rest)) := rfl
          rw [this] at h
          have hd' : (isSentEnd c && isPySpace d) = false := by
            simpa [headSpace] using hd
          simpa [hd'] using h
      have := ih h2
      cases hgo : splitSentGo false rest with
      | nil => exact absurd hgo (splitSentGo_ne_nil false rest)
      | cons t ts => rw [hgo] at this; simpa using this

theorem isPySpace_false_of_isSentEnd {c : Char} (h : isSentEnd c = true) :
    isPySpace c = false := by
  unfold isSentEnd at h
  rcases Bool.or_eq_true_iff.mp h with h | h
  · rcases Bool.or_eq_true_iff.mp h with h | h <;>
      simp only [decide_eq_true_eq] at h <;> subst h <;> decide
  · simp only [decide_eq_true_eq] at h; subst h; decide

theorem not_all_space_of_hasDelim {l : List Char} (h : hasDelim l = true) :
    l.all isPySpace = false := by
  induction l with
  | nil => simp [hasDelim] at h
  | cons c rest ih =>
    cases rest with
    | nil => simp [hasDelim] at h
    | cons d rest' =>
      have hdef : hasDelim (c :: d :: rest') =
          ((isSentEnd c && isPySpace d) || hasDelim (d :: rest')) := rfl
      rw [hdef] at h
      rcases Bool.or_eq_true_iff.mp h with h | h
    -- the delimiter character itself is not whitespace
      · have hc := isPySpace_false_of_isSentEnd (Bool.and_eq_true_iff.mp h).1
        simp [List.all_cons, hc]
      · have := ih h
        simp [List.all_cons, this]

theorem length_dropWhile_le {α : Type} (p : α → Bool) (l : List α) :
    (l.dropWhile p).length ≤ l.length := by
  induction l with
  | nil => simp
  | cons c rest ih =>
    by_cases h : p c
    · simp only [List.dropWhile_cons, h, if_pos, List.length_cons]
      omega
    · simp [List.dropWhile_cons, h]

theorem length_pyStrip_le (l : List Char) : (pyStrip l).length ≤ l.length := by
  unfold pyStrip
  calc ((l.dropWhile isPySpace).reverse.dropWhile isPySpace).reverse.length
      = ((l.dropWhile isPySpace).reverse.dropWhile isPySpace).length := by
        simp
    _ ≤ (l.dropWhile isPySpace).reverse.length :=
        length_dropWhile_le isPySpace _
    _ = (l.dropWhile isPySpace).length := by simp
    _ ≤ l.length := length_dropWhile_le isPySpace l

theorem all_of_dropWhile_all {l : List Char} (p : Char → Bool)
    (h : (l.dropWhile p).all p = true) : l.all p = true := by
  induction l with
  | nil => simp
  | cons c rest ih =>
    by_cases hc : p c = true
    · rw [List.dropWhile_cons, if_pos hc] at h
      simp [List.all_cons, hc, ih h]
    · rw [List.dropWhile_cons, if_neg hc] at h
      simp only [List.all_cons, Bool.and_eq_true] at h
      exact absurd h.1 hc

theorem pyStrip_eq_nil_iff {l : List Char} :
    pyStrip l = [] ↔ l.all isPySpace = true := by
  unfold pyStrip
  constructor
  · intro h
    have h1 : (l.dropWhile isPySpace).reverse.dropWhile isPySpace = [] := by
      simpa using congrArg List.reverse h
    have h2 : ((l.dropWhile isPySpace).reverse).all isPySpace = true := by
      rw [List.dropWhile_eq_nil_iff] at h1
      simpa [List.all_eq_true] using fun a ha => h1 a ha
    have h3 : (l.dropWhile isPySpace).all isPySpace = true := by
      simpa [List.all_eq_true] using h2
    exact all_of_dropWhile_all isPySpace h3
  · intro h
    have h1 : l.dropWhile isPySpace = [] := by
      rw [List.dropWhile_eq_nil_iff]
      intro a ha
      exact (List.all_eq_true.mp h) a ha
    rw [h1]
    simp

theorem stringMk_length (l : List Char) : (String.mk l).length = l.length := rfl

theorem stringMk_eq_empty_iff (l : List Char) : String.mk l = "" ↔ l = [] := by
  constructor
  · intro h
    exact congrArg String.data h
  · intro h
    rw [h]

theorem length_truncStep_le (l : List Char) : (truncStep l).length ≤ 100 := by
  unfold truncStep
  by_cases h : l.length > 100
  · rw [if_pos h]
    simp only [List.length_append, List.length_take, List.length_cons,
      List.length_nil]
    omega
  · rw [if_neg h]
    omega

theorem truncStep_eq_nil_iff (l : List Char) : truncStep l = [] ↔ l = [] := by
  unfold truncStep
  by_cases h : l.length > 100
  · rw [if_pos h]
    constructor
    · intro hx
      have := congrArg List.length hx
      simp only [List.length_append, List.length_take, List.length_cons,
        List.length_nil] at this
      omega
    · intro hx
      subst hx
      simp at h
  · rw [if_neg h]

theorem concatStep_singleton (l : List Char) : concatStep [l] = pyStrip l := by
  unfold concatStep
  simp

theorem concatStep_ne_nil_of_two_le {ss : List (List Char)} (h : 2 ≤ ss.length) :
    concatStep ss ≠ [] := by
  unfold concatStep
  by_cases hc : (decide ((pyStrip (ss.headD [])).length < 20) &&
      decide (ss.length > 1)) = true
  · rw [if_pos hc]
    intro hx
    have := congrArg List.length hx
    simp at this
  · rw [if_neg hc]
    intro hx
    have h1 : (pyStrip (ss.headD [])).length < 20 := by
      rw [hx]
      simp
    have h2 : ss.length > 1 := h
    exact hc (by
      simp only [Bool.and_eq_true, decide_eq_true_eq]
      exact ⟨h1, h2⟩)

/-- C5 (amended): the extractor output never exceeds 100 characters,
and it is empty exactly when the input is missing, empty, or whitespace
only (rather than only when missing or empty, as claimed). -/
theorem extract_first_sentence_bounds (o : Option String) :
    (extract_first_sentence o).length ≤ 100 ∧
      (extract_first_sentence o = "" ↔ (o.getD "").toList.all isPySpace = true) := by
  match o with
  | none => exact ⟨by decide, by decide⟩
  | some s =>
    by_cases hs : s = ""
    · subst hs
      exact ⟨by decide, by decide⟩
    · have hne : extract_first_sentence (some s) =
          String.mk (truncStep (concatStep (splitSent s.toList))) := by
        simp [extract_first_sentence, hs]
      rw [hne]
      refine ⟨?_, ?_⟩
      · rw [stringMk_length]
        exact length_truncStep_le _
      · rw [stringMk_eq_empty_iff, truncStep_eq_nil_iff]
        show concatStep (splitSent s.toList) = [] ↔ s.toList.all isPySpace = true
        by_cases hd : hasDelim s.toList = true
        · have h2 := two_le_splitSent_length hd
          have hnn := concatStep_ne_nil_of_two_le h2
          have hall := not_all_space_of_hasDelim hd
          constructor
          · intro h
            exact absurd h hnn
          · intro h
            rw [h] at hall
            cases hall
        · have hd' : hasDelim s.toList = false := by simpa using hd
          rw [splitSent_of_hasDelim_false hd', concatStep_singleton]
          exact pyStrip_eq_nil_iff

/-- C5 counterexample: on the one-space title the extractor returns the
empty string although the input is neither missing nor empty, so
"empty iff missing or empty" fails as stated. -/
theorem extract_first_sentence_space_counterexample :
    ¬(extract_first_sentence (some " ") = "" ↔
        (some " " = (none : Option String) ∨ " " = "")) := by
  decide

@[simp] theorem headSpace_cons (d : Char) (l : List Char) :
    headSpace (d :: l) = isPySpace d := rfl

theorem hasDelim_append_right {a b : List Char} (h : hasDelim (a ++ b) = false) :
    hasDelim b = false := by
  induction a with
  | nil => simpa using h
  | cons c rest ih => exact ih (hasDelim_cons_false h).2

theorem hasDelim_append_left {a b : List Char} (h : hasDelim (a ++ b) = false) :
    hasDelim a = false := by
  induction a with
  | nil => rfl
  | cons c rest ih =>
    cases rest with
    | nil => rfl
    | cons d rest' =>
      have hdef : hasDelim (c :: d :: (rest' ++ b)) =
          ((isSentEnd c && isPySpace d) || hasDelim (d :: (rest' ++ b))) := rfl
      have hh : ((isSentEnd c && isPySpace d) || hasDelim (d :: (rest' ++ b))) = false := by
        rw [← hdef]
        simpa using h
      obtain ⟨h1, h2⟩ := Bool.or_eq_false_iff.mp hh
      have hr := ih h2
      show ((isSentEnd c && isPySpace d) || hasDelim (d :: rest')) = false
      simp [h1, hr]

theorem pyStrip_eq_rdropWhile (l : List Char) :
    pyStrip l = List.rdropWhile isPySpace (l.dropWhile isPySpace) := rfl

theorem dropWhile_rdropWhile_self {p : Char → Bool} {u : List Char}
    (h : u.dropWhile p = u) :
    (List.rdropWhile p u).dropWhile p = List.rdropWhile p u := by
  obtain ⟨t, ht⟩ := List.rdropWhile_prefix p u
  cases hru : List.rdropWhile p u with
  | nil => simp
  | cons a as =>
    rw [hru] at ht
    have hu : u = a :: (as ++ t) := by
      rw [← ht]
      simp
    have hna : ¬p a = true := by
      have := List.dropWhile_eq_self_iff.mp h
      rw [hu] at this
      simpa using this (by simp)
    rw [List.dropWhile_cons, if_neg hna]

theorem pyStrip_idem (l : List Char) : pyStrip (pyStrip l) = pyStrip l := by
  rw [pyStrip_eq_rdropWhile, pyStrip_eq_rdropWhile]
  have h1 : (l.dropWhile isPySpace).dropWhile isPySpace = l.dropWhile isPySpace :=
    List.dropWhile_idempotent _ _
  rw [dropWhile_rdropWhile_self h1]
  exact List.rdropWhile_idempotent _ _

theorem hasDelim_pyStrip {l : List Char} (h : hasDelim l = false) :
    hasDelim (pyStrip l) = false := by
  rw [pyStrip_eq_rdropWhile]
  have hu : hasDelim (l.dropWhile isPySpace) = false := by
    have hsplit : l.takeWhile isPySpace ++ l.dropWhile isPySpace = l :=
      List.takeWhile_append_dropWhile _ _
    rw [← hsplit] at h
    exact hasDelim_append_right h
  obtain ⟨t, ht⟩ := List.rdropWhile_prefix isPySpace (l.dropWhile isPySpace)
  rw [← ht] at hu
  exact hasDelim_append_left hu

theorem extract_of_no_delim {s : String} (hs : s ≠ "")
    (hd : hasDelim s.toList = false) (hlen : s.toList.length ≤ 100) :
    extract_first_sentence (some s) = String.mk (pyStrip s.toList) := by
  have h0 : extract_first_sentence (some s) =
      String.mk (truncStep (concatStep (splitSent s.toList))) := by
    simp [extract_first_sentence, hs]
  rw [h0, splitSent_of_hasDelim_false hd, concatStep_singleton]
  congr 1
  unfold truncStep
  rw [if_neg]
  have := length_pyStrip_le s.toList
  omega

/-- C9: on a single-sentence input (no sentence delimiter) that is
within the truncation limit, the extractor is idempotent: re-applying
it to its own output returns that output unchanged. -/
theorem extract_first_sentence_idempotent (s : String)
    (h1 : hasDelim s.toList = false) (h2 : s.toList.length ≤ 100) :
    extract_first_sentence (some (extract_first_sentence (some s))) =
      extract_first_sentence (some s) := by
  by_cases hs : s = ""
  · subst hs
    decide
  · rw [extract_of_no_delim hs h1 h2]
    by_cases htn : pyStrip s.toList = []
    · rw [htn]
      decide
    · have hmk : String.mk (pyStrip s.toList) ≠ "" := fun hc =>
        htn ((stringMk_eq_empty_iff _).mp hc)
      have htl : (String.mk (pyStrip s.toList)).toList = pyStrip s.toList := rfl
      have hdt : hasDelim (pyStrip s.toList) = false := hasDelim_pyStrip h1
      have hlt : (pyStrip s.toList).length ≤ 100 :=
        le_trans (length_pyStrip_le _) h2
      rw [extract_of_no_delim hmk (by rw [htl]; exact hdt) (by rw [htl]; exact hlt)]
      rw [htl]
      congr 1
      exact pyStrip_idem s.toList

/-- C9 witness: the theorem applied to a concrete short single-sentence
title. -/
theorem extract_first_sentence_idempotent_witness :
    hasDelim "Hello".toList = false ∧ "Hello".toList.length ≤ 100 ∧
      extract_first_sentence (some (extract_first_sentence (some "Hello"))) =
        extract_first_sentence (some "Hello") :=
  ⟨by decide, by decide,
    extract_first_sentence_idempotent "Hello" (by decide) (by decide)⟩

/-! ## The Data Loader and Metrics Summarizer claims -/

/-- C1 counterexample: a per-cell conversion failure in the typed
`created date` column makes the whole load fail (return no table),
although the title column is present and the claim promises a table. -/
theorem load_bad_date_counterexample :
    load_and_process_data rawBadDate = none ∧
      rawBadDate.hasPostTitle = true := by
  decide

/-- C1 (amended): when the title column is present and no created-date
cell raises, the load returns a table of the same length in which every
unconvertible engagement-rate, click-through-rate or impressions cell
has become a missing value. -/
theorem load_coerces_numeric_cells (raw : RawTable)
    (ht : raw.hasPostTitle = true)
    (hd : raw.hasCreatedDate = true → ∀ r ∈ raw.rows, dateRaises r.createdDate = false) :
    ∃ t : Table, load_and_process_data raw = some t ∧
      List.Forall₂
        (fun (r : RawRow) (s : Row) =>
          (r.engagementRate = NumCell.unconvertible → s.engagementRate = none) ∧
            (r.ctr = NumCell.unconvertible → s.ctr = none) ∧
            (r.impressions = IntCell.unconvertible → s.impressions = none))
        raw.rows t.rows := by
  have hcond : (raw.hasCreatedDate &&
      raw.rows.any fun r => dateRaises r.createdDate) = false := by
    by_cases hc : raw.hasCreatedDate = true
    · have := hd hc
      simp only [hc, Bool.true_and, List.any_eq_false]
      intro r hr
      simp [this r hr]
    · simp only [Bool.not_eq_true] at hc
      simp [hc]
  unfold load_and_process_data
  rw [ht]
  simp only [Bool.not_true, Bool.false_eq_true, if_false]
  rw [hcond]
  simp only [Bool.false_eq_true, if_false]
  refine ⟨_, rfl, ?_⟩
  dsimp only
  rw [List.forall₂_map_right_iff, List.forall₂_same]
  intro r hr
  refine ⟨fun he => ?_, fun hc => ?_, fun hi => ?_⟩
  · simp [he, toNumericCoerce]
  · simp [hc, toNumericCoerce]
  · simp [hi, toNumericCoerceInt]

/-- C1 witness: the amended theorem applied to a sheet containing an
unparseable engagement-rate cell, an unparseable ctr cell and a missing
impressions cell. -/
theorem load_coerces_numeric_cells_witness :
    ∃ t : Table, load_and_process_data rawCoerce = some t ∧
      List.Forall₂
        (fun (r : RawRow) (s : Row) =>
          (r.engagementRate = NumCell.unconvertible → s.engagementRate = none) ∧
            (r.ctr = NumCell.unconvertible → s.ctr = none) ∧
            (r.impressions = IntCell.unconvertible → s.impressions = none))
        rawCoerce.rows t.rows :=
  load_coerces_numeric_cells rawCoerce (by decide) (by decide)

/-- Aggregating a mapped optional field ignores the rows where the
field is missing. -/
theorem filterMap_map_filter_isSome {α : Type} (rows : List Row)
    (f : Row → Option α) :
    (((rows.filter fun r => (f r).isSome).map f).filterMap id) =
      ((rows.map f).filterMap id) := by
  induction rows with
  | nil => rfl
  | cons r rest ih =>
    cases hf : f r with
    | none =>
      rw [List.filter_cons]
      simp only [hf, Option.isSome_none, Bool.false_eq_true, if_false]
      rw [List.map_cons, List.filterMap_cons]
      simp only [hf, id]
      exact ih
    | some v =>
      rw [List.filter_cons]
      simp only [hf, Option.isSome_some, if_true]
      rw [List.map_cons, List.map_cons, List.filterMap_cons, List.filterMap_cons]
      simp only [hf, id]
      rw [ih]

/-- C3: the Metrics Summarizer's mean and sum exclude missing values
rather than zero-filling them: dropping the missing-engagement rows
does not change the average, dropping the missing-impressions rows
does not change the sum, and the `[0.1, missing, 0.3]` table averages
to 20 percent (not 13.33) with an impressions sum of 300. -/
theorem summary_excludes_missing :
    (∀ t : Table, (create_summary_metrics t).avgEngagement =
        (create_summary_metrics (keepPresentEngagement t)).avgEngagement) ∧
      (∀ t : Table, (create_summary_metrics t).totalImpressions =
          (create_summary_metrics (keepPresentImpressions t)).totalImpressions) ∧
      (create_summary_metrics tMixed).avgEngagement = some 20 ∧
      (create_summary_metrics tMixed).totalImpressions = 300 := by
  refine ⟨fun t => ?_, fun t => ?_, ?_, ?_⟩
  · unfold create_summary_metrics keepPresentEngagement seriesMean
    simp only
    rw [filterMap_map_filter_isSome t.rows Row.engagementRate]
  · unfold create_summary_metrics keepPresentImpressions seriesSumInt
    simp only
    rw [filterMap_map_filter_isSome t.rows Row.impressions]
  · have hm : seriesMean (tMixed.rows.map Row.engagementRate) = some (mkRat 1 5) := by
      show seriesMean [some (mkRat 1 10), none, some (mkRat 3 10)] = some (mkRat 1 5)
      unfold seriesMean
      norm_num [List.filterMap, mkRat, Rat.normalize]
    unfold create_summary_metrics
    dsimp only
    rw [if_pos (show tMixed.hasEngagementRate = true from rfl), hm]
    show some (mkRat 1 5 * 100) = some 20
    norm_num [mkRat, Rat.normalize]
  · decide

/-- C10: when a rate column is present but entirely missing, the
summary average for it is the missing value (`NaN`), not zero; the zero
fallback is used only when the column is absent. -/
theorem summary_avg_all_missing (t : Table) :
    (t.hasEngagementRate = true → (∀ r ∈ t.rows, r.engagementRate = none) →
        (create_summary_metrics t).avgEngagement = none) ∧
      (t.hasEngagementRate = false →
        (create_summary_metrics t).avgEngagement = some 0) ∧
      (t.hasCtr = true → (∀ r ∈ t.rows, r.ctr = none) →
        (create_summary_metrics t).avgCtr = none) ∧
      (t.hasCtr = false → (create_summary_metrics t).avgCtr = some 0) := by
  refine ⟨fun hp hall => ?_, fun hab => ?_, fun hp hall => ?_, fun hab => ?_⟩
  · unfold create_summary_metrics seriesMean
    simp only [hp, if_true]
    have : (t.rows.map Row.engagementRate).filterMap id = [] := by
      rw [List.filterMap_eq_nil_iff]
      intro a ha
      obtain ⟨r, hr, rfl⟩ := List.mem_map.mp ha
      simpa using hall r hr
    rw [this]
    simp
  · unfold create_summary_metrics
    simp [hab]
  · unfold create_summary_metrics seriesMean
    simp only [hp, if_true]
    have : (t.rows.map Row.ctr).filterMap id = [] := by
      rw [List.filterMap_eq_nil_iff]
      intro a ha
      obtain ⟨r, hr, rfl⟩ := List.mem_map.mp ha
      simpa using hall r hr
    rw [this]
    simp
  · unfold create_summary_metrics
    simp [hab]

/-- C10 witness: the theorem applied to an all-missing rate column and
to a table without the column. -/
theorem summary_avg_all_missing_witness :
    (create_summary_metrics tAllMissing).avgEngagement = none ∧
      (create_summary_metrics tNoRateCols).avgEngagement = some 0 :=
  ⟨(summary_avg_all_missing tAllMissing).1 (by decide) (by decide),
    (summary_avg_all_missing tNoRateCols).2.1 (by decide)⟩

/-! ## The Chart Builder claims -/

/-- C2 counterexample: a table that has `created date` (and even ctr
and impressions) but no engagement-rate column makes the trend builder
raise instead of returning a chart or the sentinel. -/
theorem trend_raises_counterexample :
    tTrendBad.hasCreatedDate = true ∧
      isRaised (create_engagement_trend_chart tTrendBad) = true := by
  decide

/-- C2 (amended): each builder returns the no-chart sentinel exactly
when its explicitly checked columns are absent, returns a chart exactly
when every column it touches is present, and otherwise raises: the
trend builder needs engagement rate, impressions and ctr besides
created date; the ranking builder needs impressions besides the metric;
the correlation builder needs ctr besides impressions and engagement
rate. -/
theorem chart_builders_characterization (t : Table) (m : Metric) (n : ℕ) :
    (create_engagement_trend_chart t = Except.ok none ↔
        t.hasCreatedDate = false) ∧
      (isRaised (create_engagement_trend_chart t) =
        (t.hasCreatedDate && !(t.hasEngagementRate && t.hasImpressions && t.hasCtr))) ∧
      (hasChart (create_engagement_trend_chart t) =
        (t.hasCreatedDate && t.hasEngagementRate && t.hasImpressions && t.hasCtr)) ∧
      (create_top_posts_chart t m n = Except.ok none ↔
        metricPresent t m = false) ∧
      (isRaised (create_top_posts_chart t m n) =
        (metricPresent t m && !t.hasImpressions)) ∧
      (hasChart (create_top_posts_chart t m n) =
        (metricPresent t m && t.hasImpressions)) ∧
      (create_scatter_plot t = Except.ok none ↔
        (t.hasImpressions && t.hasEngagementRate) = false) ∧
      (isRaised (create_scatter_plot t) =
        (t.hasImpressions && t.hasEngagementRate && !t.hasCtr)) ∧
      (hasChart (create_scatter_plot t) =
        (t.hasImpressions && t.hasEngagementRate && t.hasCtr)) := by
  obtain ⟨hc, he, hct, hi, hp, rows⟩ := t
  cases hc <;> cases he <;> cases hct <;> cases hi <;> cases m <;>
    simp [create_engagement_trend_chart, create_top_posts_chart,
      create_scatter_plot, metricPresent, hasChart, isRaised]

/-! ## The Ranking Builder claim -/

/-- C4 counterexample: on a table that has the chosen metric column but
no impressions column the ranking builder raises rather than returning
the selected rows. -/
theorem rank_missing_impressions_counterexample :
    metricPresent tRankBad Metric.engagementRate = true ∧
      isRaised (create_top_posts_chart tRankBad Metric.engagementRate 2) = true := by
  decide

theorem enumFrom_metric_values (m : Metric) (rows : List Row) (i : ℕ) :
    ((List.enumFrom i rows).filterMap fun p =>
        (metricValue p.2 m).map fun v => (p.1, p.2, v)).map (fun p => p.2.2) =
      rows.filterMap fun r => metricValue r m := by
  induction rows generalizing i with
  | nil => rfl
  | cons r rs ih =>
    show ((((i, r) :: List.enumFrom (i + 1) rs)).filterMap fun p =>
        (metricValue p.2 m).map fun v => (p.1, p.2, v)).map (fun p => p.2.2) = _
    cases hv : metricValue r m with
    | none => simp [List.filterMap_cons, hv, ih (i + 1)]
    | some v => simp [List.filterMap_cons, hv, ih (i + 1)]

theorem enum_metric_values (m : Metric) (rows : List Row) :
    ((rows.enum.filterMap fun p =>
        (metricValue p.2 m).map fun v => (p.1, p.2, v)).map (fun p => p.2.2)) =
      rows.filterMap (fun r => metricValue r m) :=
  enumFrom_metric_values m rows 0

theorem nlargestLE_value_le {a b : ℕ × Row × ℚ} (h : nlargestLE a b) :
    b.2.2 ≤ a.2.2 := by
  rcases h with h | ⟨h, _⟩
  · exact le_of_lt h
  · exact le_of_eq h.symm

theorem scaleMetric_mono (m : Metric) {v w : ℚ} (h : v ≤ w) :
    scaleMetric m v ≤ scaleMetric m w := by
  unfold scaleMetric
  split
  · have : (0 : ℚ) ≤ 100 := by norm_num
    exact mul_le_mul_of_nonneg_right h this
  · exact h

/-- C4 (amended): when both the chosen metric column and the
impressions column are present, the ranking builder returns a chart of
`min N count` bars whose values are a sub-multiset of the present
(percent-scaled) metric values dominating every value left out, and the
display directive orders the bars ascending by value. -/
theorem rank_selects_largest (t : Table) (m : Metric) (n : ℕ)
    (hm : metricPresent t m = true) (hi : t.hasImpressions = true) :
    ∃ c : RankChart, create_top_posts_chart t m n = Except.ok (some c) ∧
      ∃ rest : List ℚ,
        (c.bars.map Bar.value ++ rest).Perm
          ((t.rows.filterMap fun r => metricValue r m).map (scaleMetric m)) ∧
          (∀ x ∈ c.bars.map Bar.value, ∀ y ∈ rest, y ≤ x) ∧
          c.bars.length = min n (t.rows.filterMap fun r => metricValue r m).length ∧
          List.Sorted (fun a b => a ≤ b) ((rankDisplayBars c).map Bar.value) := by
  have hbuild : create_top_posts_chart t m n = Except.ok (some
      { bars := (nlargestRows t.rows m n).map fun p =>
          { title := p.2.1.titleSummary
            value := scaleMetric m p.2.2
            impressions := p.2.1.impressions } }) := by
    unfold create_top_posts_chart
    rw [hm, hi]
    rfl
  refine ⟨_, hbuild, ?_⟩
  set cand := (t.rows.enum.filterMap fun p =>
      (metricValue p.2 m).map fun v => (p.1, p.2, v)) with hcand
  set sorted := cand.insertionSort nlargestLE with hsorted
  have hval : ∀ (l : List (ℕ × Row × ℚ)),
      ((l.map fun p => (⟨p.2.1.titleSummary, scaleMetric m p.2.2,
          p.2.1.impressions⟩ : Bar)).map Bar.value) =
        l.map fun p => scaleMetric m p.2.2 := by
    intro l
    rw [List.map_map]
    rfl
  refine ⟨(sorted.drop n).map fun p => scaleMetric m p.2.2, ?_, ?_, ?_, ?_⟩
  · dsimp only
    rw [hval]
    have h1 : (nlargestRows t.rows m n).map (fun p => scaleMetric m p.2.2) ++
        (sorted.drop n).map (fun p => scaleMetric m p.2.2) =
        sorted.map fun p => scaleMetric m p.2.2 := by
      rw [← List.map_append]
      unfold nlargestRows
      rw [← hcand, ← hsorted, List.take_append_drop]
    rw [h1]
    have h2 : sorted.Perm cand := List.perm_insertionSort nlargestLE cand
    have h3 := h2.map fun p => scaleMetric m p.2.2
    refine h3.trans ?_
    have h4 : (cand.map fun p => scaleMetric m p.2.2) =
        (cand.map fun p => p.2.2).map (scaleMetric m) := by
      rw [List.map_map]
      rfl
    rw [h4, hcand]
    rw [enum_metric_values m t.rows]
  · dsimp only
    rw [hval]
    intro x hx y hy
    obtain ⟨a, ha, rfl⟩ := List.mem_map.mp hx
    obtain ⟨b, hb, rfl⟩ := List.mem_map.mp hy
    have hsort : sorted.Pairwise nlargestLE :=
      List.sorted_insertionSort nlargestLE cand
    have hsplit : sorted.take n ++ sorted.drop n = sorted := List.take_append_drop n sorted
    rw [← hsplit] at hsort
    have hdom := (List.pairwise_append.mp hsort).2.2
    have ha' : a ∈ sorted.take n := by
      have : nlargestRows t.rows m n = sorted.take n := by
        unfold nlargestRows
        rw [← hcand, ← hsorted]
      rw [this] at ha
      exact ha
    exact scaleMetric_mono m (nlargestLE_value_le (hdom a ha' b hb))
  · dsimp only
    rw [List.length_map]
    unfold nlargestRows
    rw [← hcand, ← hsorted, List.length_take, List.length_insertionSort]
    have hlen : cand.length = (t.rows.filterMap fun r => metricValue r m).length := by
      have h5 := congrArg List.length (enum_metric_values m t.rows)
      rw [List.length_map] at h5
      exact h5
    rw [hlen]
  · haveI htot : IsTotal Bar fun a b => a.value ≤ b.value :=
      ⟨fun a b => le_total a.value b.value⟩
    haveI htr : IsTrans Bar fun a b => a.value ≤ b.value :=
      ⟨fun a b c h1 h2 => le_trans h1 h2⟩
    have hs : List.Sorted (fun a b : Bar => a.value ≤ b.value)
        (rankDisplayBars
          { bars := (nlargestRows t.rows m n).map fun p =>
              { title := p.2.1.titleSummary
                value := scaleMetric m p.2.2
                impressions := p.2.1.impressions } }) :=
      List.sorted_insertionSort _ _
    exact hs.map Bar.value fun a b h => h

/-- C4 witness: on the `[0.5, 0.9, 0.2, 0.7]` table with `N = 2` the
builder picks exactly the `0.9` and `0.7` rows (here checked on the
unscaled selection), and the amended theorem applies. -/
theorem rank_selects_largest_witness :
    metricPresent tRank Metric.engagementRate = true ∧
      tRank.hasImpressions = true ∧
      ((nlargestRows tRank.rows Metric.engagementRate 2).map fun p => p.2.2) =
        [mkRat 9 10, mkRat 7 10] ∧
      (∃ c : RankChart,
        create_top_posts_chart tRank Metric.engagementRate 2 = Except.ok (some c) ∧
        ∃ rest : List ℚ,
          (c.bars.map Bar.value ++ rest).Perm
            ((tRank.rows.filterMap fun r => metricValue r Metric.engagementRate).map
              (scaleMetric Metric.engagementRate)) ∧
            (∀ x ∈ c.bars.map Bar.value, ∀ y ∈ rest, y ≤ x) ∧
            c.bars.length = min 2
              (tRank.rows.filterMap fun r => metricValue r Metric.engagementRate).length ∧
            List.Sorted (fun a b => a ≤ b) ((rankDisplayBars c).map Bar.value)) :=
  ⟨by decide, by decide, by decide,
    rank_selects_largest tRank Metric.engagementRate 2 (by decide) (by decide)⟩

/-! ## The export claim -/

/-- C6 counterexample: with the search term `"apple"` the displayed
table keeps one row but the exported file still contains both rows —
the export is not the search-filtered table the claim describes. -/
theorem export_search_counterexample :
    (mainView tSearch
        { selectedPostType := none, dateRange := none, searchTerm := "apple" }).displayRows.length = 1 ∧
      (mainView tSearch
        { selectedPostType := none, dateRange := none, searchTerm := "apple" }).exportRows.length = 2 ∧
      (mainView tSearch
          { selectedPostType := none, dateRange := none, searchTerm := "apple" }).exportRows ≠
        claimedExportRows tSearch
          { selectedPostType := none, dateRange := none, searchTerm := "apple" } := by
  refine ⟨by decide, by decide, by decide⟩

/-- C6 (amended): the exported file is the table after the post-type
and date-range filters only, raw rows plus a header; the free-text
search never affects it (it filters only the displayed copy). -/
theorem export_ignores_search (t : Table) (inp : ViewInput) :
    (mainView t inp).exportRows =
        (applyDateFilter (applyPostTypeFilter t inp.selectedPostType) inp.dateRange).rows ∧
      (∀ s : String,
        (mainView t { inp with searchTerm := s }).exportRows =
          (mainView t inp).exportRows) ∧
      (mainView t inp).exportHeader =
        exportHeader (applyDateFilter (applyPostTypeFilter t inp.selectedPostType) inp.dateRange) :=
  ⟨rfl, fun _ => rfl, rfl⟩

/-! ## The free-text search claim -/

theorem matchHere_all_lits (p s : List Char) (h : ∀ c ∈ p, c ≠ '.') :
    matchHere (p.map fun c => if c = '.' then PatElem.anyChar else PatElem.lit c) s =
      ciIsPrefix p s := by
  induction p generalizing s with
  | nil => cases s <;> rfl
  | cons a as ih =>
    have ha : a ≠ '.' := h a (by simp)
    have h' : ∀ c ∈ as, c ≠ '.' := fun c hc => h c (by simp [hc])
    cases s with
    | nil => simp [matchHere, ciIsPrefix, ha]
    | cons b bs =>
      simp only [List.map_cons, if_neg ha]
      show (elemMatch (PatElem.lit a) b && _) = _
      unfold elemMatch ciIsPrefix
      rw [ih bs h']

theorem reSearch_all_lits (p s : List Char) (h : ∀ c ∈ p, c ≠ '.') :
    reSearch (p.map fun c => if c = '.' then PatElem.anyChar else PatElem.lit c) s =
      ciSubstr p s := by
  induction s with
  | nil =>
    unfold reSearch ciSubstr
    exact matchHere_all_lits p [] h
  | cons c cs ih =>
    unfold reSearch ciSubstr
    rw [matchHere_all_lits p (c :: cs) h, ih]

/-- C7 counterexample: the search term is fed to the regex engine, not
matched literally: the term `"."` retains a row whose title summary
does not contain a dot at all (both rows of the table stay displayed),
although `"."` is not a case-insensitive substring of either title. -/
theorem search_regex_counterexample :
    searchKeeps "." "Banana bread" = true ∧
      ciSubstr ".".toList "Banana bread".toList = false ∧
      (mainView tSearch
        { selectedPostType := none, dateRange := none, searchTerm := "." }).displayRows.length = 2 := by
  refine ⟨by decide, by decide, by decide⟩

/-- C7 (amended): the search predicate applies the term as a
case-insensitive regular expression; for terms containing no regex
metacharacter this coincides with case-insensitive literal substring
matching. -/
theorem search_literal_when_no_meta (term title : String)
    (h : term.toList.all (fun c => !isRegexMeta c) = true) :
    searchKeeps term title = ciSubstr term.toList title.toList := by
  unfold searchKeeps parsePat
  apply reSearch_all_lits
  intro c hc
  have hm := List.all_eq_true.mp h c hc
  intro hdot
  subst hdot
  simp [isRegexMeta] at hm

/-- C7 witness: the claim's own example, a case-insensitive hit. -/
theorem search_literal_when_no_meta_witness :
    "launch".toList.all (fun c => !isRegexMeta c) = true ∧
      searchKeeps "launch" "Product Launch Day" =
        ciSubstr "launch".toList "Product Launch Day".toList ∧
      searchKeeps "launch" "Product Launch Day" = true :=
  ⟨by decide,
    search_literal_when_no_meta "launch" "Product Launch Day" (by decide),
    by decide⟩

/-! ## The display-formatting claim -/

theorem natDigitsAux_lt : ∀ (fuel n : ℕ), ∀ d ∈ natDigitsAux fuel n, d < 10 := by
  intro fuel
  induction fuel with
  | zero =>
    intro n d hd
    unfold natDigitsAux at hd
    simp only [List.mem_singleton] at hd
    subst hd
    exact Nat.mod_lt _ (by omega)
  | succ fuel ih =>
    intro n d hd
    unfold natDigitsAux at hd
    by_cases h10 : n < 10
    · rw [if_pos h10] at hd
      simp only [List.mem_singleton] at hd
      omega
    · rw [if_neg h10] at hd
      rcases List.mem_append.mp hd with h | h
      · exact ih (n / 10) d h
      · simp only [List.mem_singleton] at h
        subst h
        exact Nat.mod_lt _ (by omega)

theorem natDigits_lt (n : ℕ) : ∀ d ∈ natDigits n, d < 10 :=
  natDigitsAux_lt n n

theorem natDigitsAux_val : ∀ (fuel n : ℕ), n ≤ fuel →
    (natDigitsAux fuel n).foldl (fun a d => 10 * a + d) 0 = n := by
  intro fuel
  induction fuel with
  | zero =>
    intro n hn
    interval_cases n
    rfl
  | succ fuel ih =>
    intro n hn
    unfold natDigitsAux
    by_cases h10 : n < 10
    · rw [if_pos h10]
      simp [List.foldl]
    · rw [if_neg h10]
      rw [List.foldl_append]
      rw [ih (n / 10) (by omega)]
      simp only [List.foldl]
      omega

theorem natDigits_val (n : ℕ) :
    (natDigits n).foldl (fun a d => 10 * a + d) 0 = n :=
  natDigitsAux_val n n le_rfl

theorem digitChar_props (d : ℕ) (hd : d < 10) :
    (digitChar d).toNat - 48 = d ∧ digitChar d ≠ ',' ∧ digitChar d ≠ '-' ∧
      digitChar d ≠ '.' := by
  interval_cases d <;> exact ⟨by decide, by decide, by decide, by decide⟩

theorem dropWhile_append_of_all {p : Char → Bool} :
    ∀ (xs ys : List Char), (∀ c ∈ xs, p c = true) →
      (xs ++ ys).dropWhile p = ys.dropWhile p := by
  intro xs ys h
  induction xs with
  | nil => rfl
  | cons c rest ih =>
    rw [List.cons_append, List.dropWhile_cons, if_pos (h c (by simp))]
    exact ih fun a ha => h a (by simp [ha])

/-- `pctDecimalCount` of a rendered non-missing rate is one or two:
`str(round(x, 2))` keeps one or two fractional digits, never a fixed
two. -/
theorem pctDecimalCount_formatRate (x : ℚ) :
    pctDecimalCount (formatRateCell (some x)) = 1 ∨
      pctDecimalCount (formatRateCell (some x)) = 2 := by
  unfold formatRateCell pctDecimalCount
  set k := roundHalfEven (x * 10000) with hk
  unfold ratStr2
  set sign := (if k < 0 then ['-'] else []) with hsign
  set intD := (natDigits (k.natAbs / 100)).map digitChar with hintD
  set frac := (if k.natAbs % 100 % 10 = 0 then [digitChar (k.natAbs % 100 / 10)]
    else [digitChar (k.natAbs % 100 / 10), digitChar (k.natAbs % 100 % 10)]) with hfrac
  have hpre : ∀ c ∈ sign ++ intD, (decide (c ≠ '.')) = true := by
    intro c hc
    rcases List.mem_append.mp hc with h | h
    · rw [hsign] at h
      by_cases hneg : k < 0
      · rw [if_pos hneg] at h
        simp only [List.mem_singleton] at h
        subst h
        decide
      · rw [if_neg hneg] at h
        simp at h
    · rw [hintD] at h
      obtain ⟨d, hd, rfl⟩ := List.mem_map.mp h
      have := (digitChar_props d (natDigits_lt _ d hd)).2.2.2
      simpa using this
  have hlist : (String.mk ((sign ++ intD ++ '.' :: frac) ++ ['%'])).toList =
      (sign ++ intD) ++ ('.' :: (frac ++ ['%'])) := by
    show (sign ++ intD ++ '.' :: frac) ++ ['%'] = (sign ++ intD) ++ ('.' :: (frac ++ ['%']))
    simp
  rw [hlist]
  rw [dropWhile_append_of_all _ _ hpre]
  rw [List.dropWhile_cons]
  rw [if_neg (by decide)]
  simp only [List.length_cons, List.length_append, List.length_cons, List.length_nil]
  rw [hfrac]
  by_cases hmod : k.natAbs % 100 % 10 = 0
  · rw [if_pos hmod]
    left
    simp
  · rw [if_neg hmod]
    right
    simp

theorem filter_commaGroupRev (q : Char → Bool) (hq : q ',' = false) :
    ∀ l : List Char, (commaGroupRev l).filter q = l.filter q := by
  intro l
  induction l using commaGroupRev.induct with
  | case1 a b c d rest ih =>
    show List.filter q (a :: b :: c :: ',' :: commaGroupRev (d :: rest)) = _
    simp [List.filter_cons, hq, ih]
  | case2 l h =>
    cases l with
    | nil => rfl
    | cons a l1 =>
      cases l1 with
      | nil => rfl
      | cons b l2 =>
        cases l2 with
        | nil => rfl
        | cons c l3 =>
          cases l3 with
          | nil => rfl
          | cons d rest => exact absurd rfl (h a b c d rest)

/-- Stripping commas (and a sign) from `f"{n:,}"` yields exactly the
decimal digits of `|n|`. -/
theorem digits_formatImpr (n : ℤ) :
    digitsToNat ((formatImprCell (some n)).toList.filter fun c =>
      c ≠ ',' && c ≠ '-') = n.natAbs := by
  unfold formatImprCell digitsToNat commaFmt
  set q : Char → Bool := fun c => decide (c ≠ ',') && decide (c ≠ '-') with hqdef
  set D := (natDigits n.natAbs).map digitChar with hD
  have hqc : q ',' = false := by rw [hqdef]; decide
  have hDq : ∀ c ∈ D, q c = true := by
    intro c hc
    rw [hD] at hc
    obtain ⟨d, hd, rfl⟩ := List.mem_map.mp hc
    have hcp := digitChar_props d (natDigits_lt _ d hd)
    rw [hqdef]
    simp [hcp.2.1, hcp.2.2.1]
  have hstep : ((if n < 0 then ['-'] else []) ++
      (commaGroupRev D.reverse).reverse).filter q = D := by
    rw [List.filter_append]
    have h1 : ((if n < 0 then ['-'] else []) : List Char).filter q = [] := by
      by_cases hneg : n < 0
      · rw [if_pos hneg]
        show List.filter q ['-'] = []
        have : q '-' = false := by rw [hqdef]; decide
        simp [List.filter_cons, this]
      · rw [if_neg hneg]
        rfl
    rw [h1, List.nil_append]
    rw [List.filter_reverse, filter_commaGroupRev q hqc, List.filter_reverse,
      List.reverse_reverse]
    exact List.filter_eq_self.mpr hDq
  show (((if n < 0 then ['-'] else []) ++
      (commaGroupRev D.reverse).reverse).filter q).foldl
        (fun a c => 10 * a + (c.toNat - 48)) 0 = n.natAbs
  rw [hstep, hD, List.foldl_map]
  have hfold : ∀ (ds : List ℕ), (∀ d ∈ ds, d < 10) → ∀ a : ℕ,
      ds.foldl (fun x d => 10 * x + ((digitChar d).toNat - 48)) a =
        ds.foldl (fun x d => 10 * x + d) a := by
    intro ds
    induction ds with
    | nil => intro _ a; rfl
    | cons d rest ih =>
      intro h a
      simp only [List.foldl]
      rw [(digitChar_props d (h d (by simp))).1]
      exact ih (fun e he => h e (by simp [he])) _
  rw [hfold _ (natDigits_lt n.natAbs) 0]
  exact natDigits_val n.natAbs

/-- C8 counterexample: the engagement rate `0.05` is displayed as
`"5.0%"` — one decimal place, not the exactly two the claim states. -/
theorem format_rate_one_decimal_counterexample :
    formatRateCell (some (mkRat 1 20)) = "5.0%" ∧
      pctDecimalCount "5.0%" = 1 := by
  constructor
  · have h : roundHalfEven (mkRat 1 20 * 10000) = 500 := by
      unfold roundHalfEven
      norm_num [mkRat, Rat.normalize]
    simp [formatRateCell, h]
    decide
  · decide

/-- C8 (amended): a non-missing rate renders as a percent string with
one or two decimal places (the trailing hundredths zero is dropped);
impressions render with thousands separators preserving the digits,
with `"0"` for a missing cell as a display substitution only — the
aggregation still skips the missing cell. -/
theorem display_formatting (x : ℚ) (n : ℤ) (xs : List (Option ℤ)) :
    (pctDecimalCount (formatRateCell (some x)) = 1 ∨
        pctDecimalCount (formatRateCell (some x)) = 2) ∧
      digitsToNat ((formatImprCell (some n)).toList.filter fun c =>
        c ≠ ',' && c ≠ '-') = n.natAbs ∧
      formatImprCell (some 1234567) = "1,234,567" ∧
      formatImprCell none = "0" ∧
      seriesSumInt (xs ++ [none]) = seriesSumInt xs := by
  refine ⟨pctDecimalCount_formatRate x, digits_formatImpr n, by decide, rfl, ?_⟩
  unfold seriesSumInt
  rw [List.filterMap_append]
  simp

end SalesStrategy
